import Mathlib

/-!
Verification of the address augmentation core (`src/stream/oa/augment.js`).

The augmentation stream consumes lookup tuples (candidate streets plus a
batch of raw address records) and emits observation anchors followed by
synthetic vertex anchors.  This file gives a shallow embedding of that
driver and of its collaborators, and proves the specified properties.

Numbers: JS floats are modelled as rationals; housenumbers returned by the
external parser as integers.  The geometric collaborators
(`lib/project.js`, `lib/analyze.js`, the polyline codec) are not part of
the sources, so they are kept abstract behind a record of functions; the
interpolator (`lib/interpolate.js`) is likewise absent and is modelled
from its specification.
-/

/-- A coordinate pair `(lon, lat)`. -/
abbrev Coord : Type := ℚ × ℚ

/-- Side of the street, the value of `project.parity`. -/
inductive Side where
  | L
  | R
deriving DecidableEq, Repr

/-- An observation, as pushed on `distances[nearest.index]` in
`augment.js` line 80: `{ housenumber: housenumber, dist: dist, parity: parity }`.
`parity` is `none` when `project.parity` yields no side. -/
structure Obs where
  housenumber : ℤ
  dist : ℚ
  parity : Option Side
deriving DecidableEq, Repr

/-- A projection result as consumed by `augment.js` (`proj.point`,
`proj.dist`, `proj.edge`).  A projection that fails the validity check of
lines 52-57 (missing edge or point, infinite distance) is modelled as
`none` at the producer. -/
structure Proj where
  point : Coord
  dist : ℚ
  edge : Coord × Coord
deriving DecidableEq, Repr

/-- An anchor row pushed downstream (`this.push({...})` in `augment.js`).
`toFixed` serialization is not modelled; coordinate and housenumber fields
keep their numeric values. -/
structure Row where
  id : String
  source : String
  housenumber : ℚ
  lon : Option ℚ
  lat : Option ℚ
  parity : Option Side
  proj_lon : ℚ
  proj_lat : ℚ
deriving DecidableEq, Repr

/- ---------------------------------------------------------------- -/
/- Scheme classifier (`augment.js` lines 118-142)                    -/
/- ---------------------------------------------------------------- -/

/-- One side's memo of the classifier: `{ odd: 0, even: 0, total: 0 }`.
Beware: the source computes `isEven = parseInt(housenumber, 10) % 2` and
bumps `even` when that value is truthy, so the `even` field in fact counts
odd housenumbers and `odd` counts even ones; the fields keep the source's
names. -/
structure Tally where
  odd : ℕ
  even : ℕ
  total : ℕ
deriving DecidableEq, Repr

/-- The classifier's memo `ord` with its `R` and `L` buckets. -/
structure OrdMemo where
  R : Tally
  L : Tally
deriving DecidableEq, Repr

/-- `if( isEven ){ ord[..].even++; } else { ord[..].odd++; } ord[..].total++;`
with `isEven = parseInt(cur.housenumber, 10) % 2`. -/
def tallyObs (t : Tally) (h : ℤ) : Tally :=
  if h % 2 ≠ 0 then { t with even := t.even + 1, total := t.total + 1 }
  else { t with odd := t.odd + 1, total := t.total + 1 }

/-- Body of `d.forEach` in lines 127-134: observations lacking a (truthy)
parity or housenumber are ignored. -/
def ordStep (m : OrdMemo) (cur : Obs) : OrdMemo :=
  match cur.parity with
  | none => m
  | some s =>
    if cur.housenumber ≠ 0 then
      match s with
      | Side.R => { m with R := tallyObs m.R cur.housenumber }
      | Side.L => { m with L := tallyObs m.L cur.housenumber }
    else m

/-- The accumulated memo for one street's observation list. -/
def ordOf (d : List Obs) : OrdMemo :=
  d.foldl ordStep ⟨⟨0, 0, 0⟩, ⟨0, 0, 0⟩⟩

/-- Scheme assignment, lines 136-141: `zz1 || zz2 ? 'zigzag' : 'updown'`. -/
def schemeOf (d : List Obs) : String :=
  let ord := ordOf d
  if (ord.R.odd = ord.R.total ∧ ord.L.even = ord.L.total) ∨
     (ord.L.odd = ord.L.total ∧ ord.R.even = ord.R.total) then "zigzag"
  else "updown"

/- Spec-side counts, written from the claim: per side, the odd and even
housenumbers among observations having both a parity and a housenumber,
parity of a housenumber taken as housenumber mod 2. -/

/-- Observations on side `s` having both a parity and a housenumber. -/
def sideObs (s : Side) (d : List Obs) : List Obs :=
  d.filter (fun o => o.parity = some s ∧ o.housenumber ≠ 0)

/-- Count of odd housenumbers observed on side `s`. -/
def oddCount (s : Side) (d : List Obs) : ℕ :=
  ((sideObs s d).filter (fun o => o.housenumber % 2 = 1)).length

/-- Count of even housenumbers observed on side `s`. -/
def evenCount (s : Side) (d : List Obs) : ℕ :=
  ((sideObs s d).filter (fun o => o.housenumber % 2 = 0)).length

/-- Count of all considered observations on side `s`. -/
def totalCount (s : Side) (d : List Obs) : ℕ :=
  (sideObs s d).length

/-- The claim's zigzag criterion: all right observations odd and all left
even, or all left odd and all right even. -/
def specZigzag (d : List Obs) : Prop :=
  (oddCount Side.R d = totalCount Side.R d ∧ evenCount Side.L d = totalCount Side.L d) ∨
  (oddCount Side.L d = totalCount Side.L d ∧ evenCount Side.R d = totalCount Side.R d)

instance (d : List Obs) : Decidable (specZigzag d) := by
  unfold specZigzag; infer_instance

lemma emod_two_cases (h : ℤ) : h % 2 = 0 ∨ h % 2 = 1 := Int.emod_two_eq_zero_or_one h

lemma sideObs_cons (s : Side) (o : Obs) (d : List Obs) :
    sideObs s (o :: d) =
      if o.parity = some s ∧ o.housenumber ≠ 0 then o :: sideObs s d else sideObs s d := by
  by_cases h : o.parity = some s ∧ o.housenumber ≠ 0 <;>
    simp [sideObs, List.filter_cons, h]

lemma oddCount_cons (s : Side) (o : Obs) (d : List Obs) :
    oddCount s (o :: d) =
      (if o.parity = some s ∧ o.housenumber ≠ 0 ∧ o.housenumber % 2 = 1 then 1 else 0)
        + oddCount s d := by
  unfold oddCount
  rw [sideObs_cons]
  by_cases hp : o.parity = some s ∧ o.housenumber ≠ 0
  · rw [if_pos hp]
    simp only [List.filter_cons, decide_eq_true_eq]
    by_cases h2 : o.housenumber % 2 = 1
    · rw [if_pos h2, if_pos ⟨hp.1, hp.2, h2⟩, List.length_cons, Nat.add_comm]
    · rw [if_neg h2, if_neg (fun h => h2 h.2.2), Nat.zero_add]
  · rw [if_neg hp, if_neg (fun h => hp ⟨h.1, h.2.1⟩), Nat.zero_add]

lemma evenCount_cons (s : Side) (o : Obs) (d : List Obs) :
    evenCount s (o :: d) =
      (if o.parity = some s ∧ o.housenumber ≠ 0 ∧ o.housenumber % 2 = 0 then 1 else 0)
        + evenCount s d := by
  unfold evenCount
  rw [sideObs_cons]
  by_cases hp : o.parity = some s ∧ o.housenumber ≠ 0
  · rw [if_pos hp]
    simp only [List.filter_cons, decide_eq_true_eq]
    by_cases h2 : o.housenumber % 2 = 0
    · rw [if_pos h2, if_pos ⟨hp.1, hp.2, h2⟩, List.length_cons, Nat.add_comm]
    · rw [if_neg h2, if_neg (fun h => h2 h.2.2), Nat.zero_add]
  · rw [if_neg hp, if_neg (fun h => hp ⟨h.1, h.2.1⟩), Nat.zero_add]

lemma totalCount_cons (s : Side) (o : Obs) (d : List Obs) :
    totalCount s (o :: d) =
      (if o.parity = some s ∧ o.housenumber ≠ 0 then 1 else 0) + totalCount s d := by
  unfold totalCount
  rw [sideObs_cons]
  by_cases hp : o.parity = some s ∧ o.housenumber ≠ 0
  · rw [if_pos hp, if_pos hp, List.length_cons, Nat.add_comm]
  · rw [if_neg hp, if_neg hp, Nat.zero_add]

/-- The classifier's fold, expressed with the spec-side counts.  The
source's `even` field counts odd housenumbers and conversely. -/
lemma ordOf_go : ∀ (d : List Obs) (m : OrdMemo),
    d.foldl ordStep m =
      ⟨⟨m.R.odd + evenCount Side.R d, m.R.even + oddCount Side.R d,
        m.R.total + totalCount Side.R d⟩,
       ⟨m.L.odd + evenCount Side.L d, m.L.even + oddCount Side.L d,
        m.L.total + totalCount Side.L d⟩⟩ := by
  intro d
  induction d with
  | nil =>
    intro m
    simp [oddCount, evenCount, totalCount, sideObs]
  | cons o d ih =>
    intro m
    rw [List.foldl_cons, ih]
    rw [oddCount_cons Side.R, oddCount_cons Side.L, evenCount_cons Side.R,
      evenCount_cons Side.L, totalCount_cons Side.R, totalCount_cons Side.L]
    rcases hpar : o.parity with _ | s
    · simp [ordStep, hpar]
    · by_cases hz : o.housenumber = 0
      · simp [ordStep, hpar, hz]
      · rcases emod_two_cases o.housenumber with h2 | h2 <;> rcases s with _ | _ <;>
          · simp [ordStep, hpar, hz, tallyObs, h2, OrdMemo.mk.injEq, Tally.mk.injEq]
            omega

lemma ordOf_counts (d : List Obs) :
    ordOf d =
      ⟨⟨evenCount Side.R d, oddCount Side.R d, totalCount Side.R d⟩,
       ⟨evenCount Side.L d, oddCount Side.L d, totalCount Side.L d⟩⟩ := by
  have h := ordOf_go d ⟨⟨0, 0, 0⟩, ⟨0, 0, 0⟩⟩
  simpa [ordOf] using h

/-- C1.  The scheme classifier counts, per side, odd and even housenumbers
among observations having both a parity and a housenumber, and assigns
`zigzag` exactly when all right observations are odd and all left ones
even, or all left observations are odd and all right ones even; otherwise
`updown`. -/
theorem schemeOf_eq_spec (d : List Obs) :
    schemeOf d = if specZigzag d then "zigzag" else "updown" := by
  unfold schemeOf specZigzag
  rw [ordOf_counts]
  refine if_congr ?_ rfl rfl
  constructor
  · rintro (⟨h1, h2⟩ | ⟨h1, h2⟩)
    · exact Or.inr ⟨h2, h1⟩
    · exact Or.inl ⟨h2, h1⟩
  · rintro (⟨h1, h2⟩ | ⟨h1, h2⟩)
    · exact Or.inr ⟨h2, h1⟩
    · exact Or.inl ⟨h2, h1⟩

/- ---------------------------------------------------------------- -/
/- Sorting the observation list (`augment.js` lines 99-103)          -/
/- ---------------------------------------------------------------- -/

/-- Comparison used by the sort of lines 100-102. -/
def distLE (a b : Obs) : Prop := a.dist ≤ b.dist

instance : DecidableRel distLE := fun a b => inferInstanceAs (Decidable (a.dist ≤ b.dist))

instance : IsTotal Obs distLE := ⟨fun a b => le_total a.dist b.dist⟩

instance : IsTrans Obs distLE := ⟨fun _ _ _ h1 h2 => le_trans h1 h2⟩

/-- `d.sort( function( a, b ){ return ( a.dist > b.dist ) ? 1 : -1; })`,
as used by the driver model.  The comparator reports `a` before `b`
exactly when `a.dist ≤ b.dist`, so any order the engine may produce is
ascending in `dist`; but the comparator never returns 0, hence is not a
consistent comparison function, and the order of equal-`dist`
observations is implementation-defined (see `distCompare` and
`jsSortPair` below).  The driver model determinizes that order as a
stable insertion sort by `dist`; the driver-level theorems proved below
do not depend on the order chosen within an equal-`dist` bucket. -/
def sortByDist (d : List Obs) : List Obs := List.insertionSort distLE d

/-- The comparator of lines 100-102, verbatim:
`( a.dist > b.dist ) ? 1 : -1`.  It never returns 0. -/
def distCompare (a b : Obs) : ℤ := if a.dist > b.dist then 1 else -1

/-- `Array.prototype.sort` on a two-element array under the ES2019+
TimSort of the engine: the initial run detection compares the second
element against the first and reverses the run when the comparator
reports it descending (negative). -/
def jsSortPair (a b : Obs) : List Obs :=
  if distCompare b a < 0 then [b, a] else [a, b]

/-- First of two observations sharing the same arc distance. -/
def obsT1 : Obs := ⟨1, 5, some Side.L⟩

/-- Second observation at the same arc distance. -/
def obsT2 : Obs := ⟨2, 5, some Side.R⟩

/-- C9.  The sort comparator of lines 100-102 is inconsistent on equal
distances: it reports each of two distinct equal-`dist` observations as
before the other, so the engine's tie order is implementation-defined,
and the ES2019+ TimSort concretely reverses the equal-`dist` pair —
insertion order of ties is not kept, contrary to the claimed stable
tie-break (which the stable determinization `sortByDist` would give). -/
theorem observation_sort_tie_reversal :
    distCompare obsT1 obsT2 = -1 ∧ distCompare obsT2 obsT1 = -1 ∧
    jsSortPair obsT1 obsT2 = [obsT2, obsT1] ∧
    sortByDist [obsT1, obsT2] = [obsT1, obsT2] ∧
    (decide (obsT1 = obsT2) = false) := by
  refine ⟨by decide, by decide, by decide, by decide, by decide⟩

/- ---------------------------------------------------------------- -/
/- Vertex interpolator                                               -/
/- ---------------------------------------------------------------- -/

/-- Modelled from the spec: `lib/interpolate.js` is not under `src/`.
`(d_lo, h_lo)` is the largest observation with `d ≤ q` (first such
observation wins among equal distances). -/
def findLo (track : List Obs) (q : ℚ) : Option Obs :=
  track.foldl (fun best o =>
    match best with
    | none => if o.dist ≤ q then some o else none
    | some b => if o.dist ≤ q ∧ b.dist < o.dist then some o else some b) none

/-- Modelled from the spec: `(d_hi, h_hi)` is the smallest observation
with `d ≥ q` (first such observation wins among equal distances). -/
def findHi (track : List Obs) (q : ℚ) : Option Obs :=
  track.foldl (fun best o =>
    match best with
    | none => if q ≤ o.dist then some o else none
    | some b => if q ≤ o.dist ∧ o.dist < b.dist then some o else some b) none

/-- Modelled from the spec: the vertex interpolator of
`lib/interpolate.js` (absent from `src/`).  Fewer than two observations,
or a missing bracketing observation, yield nothing; equal bracketing
distances yield `h_lo`; otherwise the linear interpolation formula. -/
def interpolate (track : List Obs) (q : ℚ) : Option ℚ :=
  if track.length < 2 then none
  else
    match findLo track q, findHi track q with
    | some lo, some hi =>
      if lo.dist = hi.dist then some ((lo.housenumber : ℚ))
      else some ((lo.housenumber : ℚ) +
        ((hi.housenumber : ℚ) - (lo.housenumber : ℚ)) * (q - lo.dist) / (hi.dist - lo.dist))
    | _, _ => none

lemma findLo_go (q : ℚ) : ∀ (track : List Obs) (best : Option Obs),
    (∀ b, best = some b → b.dist ≤ q) →
    ∀ lo, track.foldl (fun best o =>
        match best with
        | none => if o.dist ≤ q then some o else none
        | some b => if o.dist ≤ q ∧ b.dist < o.dist then some o else some b) best = some lo →
      (lo ∈ track ∨ best = some lo) ∧ lo.dist ≤ q ∧
      (∀ o ∈ track, o.dist ≤ q → o.dist ≤ lo.dist) ∧
      (∀ b, best = some b → b.dist ≤ lo.dist) := by
  intro track
  induction track with
  | nil =>
    intro best hbest lo hfold
    simp only [List.foldl_nil] at hfold
    subst hfold
    refine ⟨Or.inr rfl, hbest lo rfl, by simp, ?_⟩
    rintro b hb
    cases hb
    exact le_refl _
  | cons o track ih =>
    intro best hbest lo hfold
    rw [List.foldl_cons] at hfold
    rcases hb : best with _ | b
    · rw [hb] at hfold
      by_cases ho : o.dist ≤ q
      · simp only [ho, if_pos] at hfold
        have h2 := ih (some o) (by rintro b hb2; cases hb2; exact ho) lo hfold
        refine ⟨?_, h2.2.1, ?_, by rintro b hb2; cases hb2⟩
        · rcases h2.1 with h | h
          · exact Or.inl (List.mem_cons_of_mem _ h)
          · cases h; exact Or.inl (List.mem_cons_self _ _)
        · intro x hx hxq
          rcases List.mem_cons.mp hx with rfl | hx
          · exact h2.2.2.2 x rfl
          · exact h2.2.2.1 x hx hxq
      · simp only [ho, if_neg, if_false, ite_false] at hfold
        have h2 := ih none (by rintro b hb2; cases hb2) lo hfold
        refine ⟨?_, h2.2.1, ?_, by rintro b hb2; cases hb2⟩
        · rcases h2.1 with h | h
          · exact Or.inl (List.mem_cons_of_mem _ h)
          · cases h
        · intro x hx hxq
          rcases List.mem_cons.mp hx with rfl | hx
          · exact absurd hxq ho
          · exact h2.2.2.1 x hx hxq
    · rw [hb] at hfold
      by_cases ho : o.dist ≤ q ∧ b.dist < o.dist
      · simp only [ho, if_pos] at hfold
        have h2 := ih (some o) (by rintro c hc; cases hc; exact ho.1) lo hfold
        refine ⟨?_, h2.2.1, ?_, ?_⟩
        · rcases h2.1 with h | h
          · exact Or.inl (List.mem_cons_of_mem _ h)
          · cases h; exact Or.inl (List.mem_cons_self _ _)
        · intro x hx hxq
          rcases List.mem_cons.mp hx with rfl | hx
          · exact h2.2.2.2 x rfl
          · exact h2.2.2.1 x hx hxq
        · rintro c hc
          cases hc
          exact le_of_lt (lt_of_lt_of_le ho.2 (h2.2.2.2 o rfl))
      · simp only [ho, if_neg, ite_false] at hfold
        have h2 := ih (some b) (by rintro c hc; cases hc; exact hbest b hb) lo hfold
        refine ⟨?_, h2.2.1, ?_, ?_⟩
        · rcases h2.1 with h | h
          · exact Or.inl (List.mem_cons_of_mem _ h)
          · exact Or.inr h
        · intro x hx hxq
          rcases List.mem_cons.mp hx with rfl | hx
          · have hbx : ¬ b.dist < x.dist := fun hlt => ho ⟨hxq, hlt⟩
            exact le_trans (le_of_not_lt hbx) (h2.2.2.2 b rfl)
          · exact h2.2.2.1 x hx hxq
        · rintro c hc
          cases hc
          exact h2.2.2.2 _ rfl

lemma findHi_go (q : ℚ) : ∀ (track : List Obs) (best : Option Obs),
    (∀ b, best = some b → q ≤ b.dist) →
    ∀ hi, track.foldl (fun best o =>
        match best with
        | none => if q ≤ o.dist then some o else none
        | some b => if q ≤ o.dist ∧ o.dist < b.dist then some o else some b) best = some hi →
      (hi ∈ track ∨ best = some hi) ∧ q ≤ hi.dist ∧
      (∀ o ∈ track, q ≤ o.dist → hi.dist ≤ o.dist) ∧
      (∀ b, best = some b → hi.dist ≤ b.dist) := by
  intro track
  induction track with
  | nil =>
    intro best hbest hi hfold
    simp only [List.foldl_nil] at hfold
    subst hfold
    refine ⟨Or.inr rfl, hbest hi rfl, by simp, ?_⟩
    rintro b hb
    cases hb
    exact le_refl _
  | cons o track ih =>
    intro best hbest hi hfold
    rw [List.foldl_cons] at hfold
    rcases hb : best with _ | b
    · rw [hb] at hfold
      by_cases ho : q ≤ o.dist
      · simp only [ho, if_pos] at hfold
        have h2 := ih (some o) (by rintro b hb2; cases hb2; exact ho) hi hfold
        refine ⟨?_, h2.2.1, ?_, by rintro b hb2; cases hb2⟩
        · rcases h2.1 with h | h
          · exact Or.inl (List.mem_cons_of_mem _ h)
          · cases h; exact Or.inl (List.mem_cons_self _ _)
        · intro x hx hxq
          rcases List.mem_cons.mp hx with rfl | hx
          · exact h2.2.2.2 x rfl
          · exact h2.2.2.1 x hx hxq
      · simp only [ho, if_neg, if_false, ite_false] at hfold
        have h2 := ih none (by rintro b hb2; cases hb2) hi hfold
        refine ⟨?_, h2.2.1, ?_, by rintro b hb2; cases hb2⟩
        · rcases h2.1 with h | h
          · exact Or.inl (List.mem_cons_of_mem _ h)
          · cases h
        · intro x hx hxq
          rcases List.mem_cons.mp hx with rfl | hx
          · exact absurd hxq ho
          · exact h2.2.2.1 x hx hxq
    · rw [hb] at hfold
      by_cases ho : q ≤ o.dist ∧ o.dist < b.dist
      · simp only [ho, if_pos] at hfold
        have h2 := ih (some o) (by rintro c hc; cases hc; exact ho.1) hi hfold
        refine ⟨?_, h2.2.1, ?_, ?_⟩
        · rcases h2.1 with h | h
          · exact Or.inl (List.mem_cons_of_mem _ h)
          · cases h; exact Or.inl (List.mem_cons_self _ _)
        · intro x hx hxq
          rcases List.mem_cons.mp hx with rfl | hx
          · exact h2.2.2.2 x rfl
          · exact h2.2.2.1 x hx hxq
        · rintro c hc
          cases hc
          exact le_of_lt (lt_of_le_of_lt (h2.2.2.2 o rfl) ho.2)
      · simp only [ho, if_neg, ite_false] at hfold
        have h2 := ih (some b) (by rintro c hc; cases hc; exact hbest b hb) hi hfold
        refine ⟨?_, h2.2.1, ?_, ?_⟩
        · rcases h2.1 with h | h
          · exact Or.inl (List.mem_cons_of_mem _ h)
          · exact Or.inr h
        · intro x hx hxq
          rcases List.mem_cons.mp hx with rfl | hx
          · have hbx : ¬ x.dist < b.dist := fun hlt => ho ⟨hxq, hlt⟩
            exact le_trans (h2.2.2.2 b rfl) (le_of_not_lt hbx)
          · exact h2.2.2.1 x hx hxq
        · rintro c hc
          cases hc
          exact h2.2.2.2 _ rfl

lemma findLo_not_below (q : ℚ) : ∀ (track : List Obs),
    (∀ o ∈ track, ¬ o.dist ≤ q) → findLo track q = none := by
  intro track
  induction track with
  | nil => intro _; rfl
  | cons o t ih =>
    intro h
    have ho := h o (List.mem_cons_self _ _)
    have h2 : findLo (o :: t) q = findLo t q := by
      unfold findLo
      rw [List.foldl_cons]
      simp [ho]
    rw [h2]
    exact ih (fun x hx => h x (List.mem_cons_of_mem _ hx))

lemma findHi_not_above (q : ℚ) : ∀ (track : List Obs),
    (∀ o ∈ track, ¬ q ≤ o.dist) → findHi track q = none := by
  intro track
  induction track with
  | nil => intro _; rfl
  | cons o t ih =>
    intro h
    have ho := h o (List.mem_cons_self _ _)
    have h2 : findHi (o :: t) q = findHi t q := by
      unfold findHi
      rw [List.foldl_cons]
      simp [ho]
    rw [h2]
    exact ih (fun x hx => h x (List.mem_cons_of_mem _ hx))

/-- C3.  The interpolator returns nothing on a track of fewer than two
observations, and nothing when no observation lies at or below (or at or
above) the query distance; `findLo` picks the largest observation with
distance at or below the query and `findHi` the smallest at or above it;
when both bracketing observations exist the result is `h_lo` for a
degenerate bracket and the linear interpolation formula otherwise. -/
theorem interpolate_spec (track : List Obs) (q : ℚ) :
    (track.length < 2 → interpolate track q = none) ∧
    ((∀ o ∈ track, ¬ o.dist ≤ q) → interpolate track q = none) ∧
    ((∀ o ∈ track, ¬ q ≤ o.dist) → interpolate track q = none) ∧
    (∀ lo, findLo track q = some lo →
       lo ∈ track ∧ lo.dist ≤ q ∧ ∀ o ∈ track, o.dist ≤ q → o.dist ≤ lo.dist) ∧
    (∀ hi, findHi track q = some hi →
       hi ∈ track ∧ q ≤ hi.dist ∧ ∀ o ∈ track, q ≤ o.dist → hi.dist ≤ o.dist) ∧
    (∀ lo hi, ¬ track.length < 2 → findLo track q = some lo → findHi track q = some hi →
       interpolate track q = some (if lo.dist = hi.dist then ((lo.housenumber : ℚ))
         else (lo.housenumber : ℚ) +
           ((hi.housenumber : ℚ) - (lo.housenumber : ℚ)) * (q - lo.dist) / (hi.dist - lo.dist))) := by
  refine ⟨?_, ?_, ?_, ?_, ?_, ?_⟩
  · intro h
    unfold interpolate
    rw [if_pos h]
  · intro h
    unfold interpolate
    rw [findLo_not_below q track h]
    by_cases hlen : track.length < 2
    · rw [if_pos hlen]
    · rw [if_neg hlen]
  · intro h
    unfold interpolate
    rw [findHi_not_above q track h]
    by_cases hlen : track.length < 2
    · rw [if_pos hlen]
    · rw [if_neg hlen]
      rcases findLo track q with _ | lo <;> rfl
  · intro lo hlo
    have h := findLo_go q track none (by rintro b hb; cases hb) lo hlo
    refine ⟨?_, h.2.1, h.2.2.1⟩
    rcases h.1 with h1 | h1
    · exact h1
    · cases h1
  · intro hi hhi
    have h := findHi_go q track none (by rintro b hb; cases hb) hi hhi
    refine ⟨?_, h.2.1, h.2.2.1⟩
    rcases h.1 with h1 | h1
    · exact h1
    · cases h1
  · intro lo hi hlen hlo hhi
    unfold interpolate
    rw [if_neg hlen, hlo, hhi]
    show (if lo.dist = hi.dist then some ((lo.housenumber : ℚ))
        else some ((lo.housenumber : ℚ) +
          ((hi.housenumber : ℚ) - (lo.housenumber : ℚ)) * (q - lo.dist) / (hi.dist - lo.dist))) = _
    by_cases h : lo.dist = hi.dist
    · rw [if_pos h, if_pos h]
    · rw [if_neg h, if_neg h]

/-- Concrete track for exercising the interpolator. -/
def obsLoW : Obs := ⟨1, 0, some Side.L⟩

/-- Concrete upper bracketing observation. -/
def obsHiW : Obs := ⟨3, 4, some Side.L⟩

/-- Concrete two-observation track. -/
def trackW : List Obs := [obsLoW, obsHiW]

theorem interpolate_spec_check :
    (interpolate trackW 2 = some (if obsLoW.dist = obsHiW.dist then ((obsLoW.housenumber : ℚ))
       else (obsLoW.housenumber : ℚ) +
         ((obsHiW.housenumber : ℚ) - (obsLoW.housenumber : ℚ)) *
           ((2 : ℚ) - obsLoW.dist) / (obsHiW.dist - obsLoW.dist))) ∧
    interpolate [] 2 = none :=
  ⟨(interpolate_spec trackW 2).2.2.2.2.2 obsLoW obsHiW (by decide) (by decide) (by decide),
   (interpolate_spec [] 2).1 (by decide)⟩

/- ---------------------------------------------------------------- -/
/- The augmentation driver (`augment.js` lines 15-205)               -/
/- ---------------------------------------------------------------- -/

/-- Modelled from the spec: the collaborators of `augment.js` that are not
under `src/` — `analyze.housenumber` (the external housenumber parser,
returning an integer or an invalid sentinel, here `none`),
`polyline.toGeoJSON` composed with `project.dedupe` (here `decode`),
`project.pointOnLine` (an invalid projection — missing edge or point, or
infinite distance — is `none`), `project.parity`,
`project.sliceLineAtProjection` and `project.lineDistance`.  The driver is
verified for every such family of collaborators. -/
structure Geo where
  housenumber : String → Option ℤ
  decode : String → List Coord
  pointOnLine : List Coord → Coord → Option Proj
  parity : Proj → Coord → Option Side
  sliceLineAtProjection : List Coord → Proj → List Coord
  lineDistance : List Coord → ℚ

/-- A street of the incoming lookup tuple: `{ id, line }`. -/
structure Street where
  id : String
  line : String
deriving DecidableEq, Repr

/-- A raw address record of the batch: `{ NUMBER, LON, LAT }` (the
`parseFloat` of the stringified coordinates is modelled as the rational
values themselves). -/
structure Item where
  NUMBER : String
  LON : ℚ
  LAT : ℚ
deriving DecidableEq, Repr

/-- The lookup tuple consumed by the stream. -/
structure Lookup where
  streets : List Street
  batch : List Item
deriving DecidableEq, Repr

/-- A street with its decoded, deduplicated coordinates
(`street.coordinates = project.dedupe(polyline.toGeoJSON(street.line, PRECISION).coordinates)`,
line 26). -/
structure DStreet where
  id : String
  coordinates : List Coord
deriving DecidableEq, Repr

/-- Decoding pass of lines 25-28. -/
def decodeStreets (geo : Geo) (streets : List Street) : List DStreet :=
  streets.map (fun s => ⟨s.id, geo.decode s.line⟩)

/-- One candidate of the nearest-street loop, lines 48-65: an invalid
projection logs three diagnostics and leaves the accumulator; a valid one
replaces the running nearest exactly when strictly closer (the initial
distance being infinite, any valid projection beats an empty
accumulator). -/
def scanBody (geo : Geo) (point : Coord)
    (acc : Option (ℕ × DStreet × Proj) × List String) (is : ℕ × DStreet) :
    Option (ℕ × DStreet × Proj) × List String :=
  match geo.pointOnLine is.2.coordinates point with
  | none => (acc.1, acc.2 ++ ["unable to project point on to linestring", "street", "point"])
  | some proj =>
    match acc.1 with
    | none => (some (is.1, is.2, proj), acc.2)
    | some best => if proj.dist < best.2.2.dist then (some (is.1, is.2, proj), acc.2) else acc

/-- The nearest-street selection loop (lines 46-65), returning the chosen
candidate (index, street, projection) and the diagnostics logged. -/
def scanStreets (geo : Geo) (point : Coord) (streets : List DStreet) :
    Option (ℕ × DStreet × Proj) × List String :=
  streets.enum.foldl (scanBody geo point) (none, [])

/-- Processing of one batch item, lines 31-94: parse the housenumber (log
and skip on the invalid sentinel), select the nearest street (log and skip
when none), then produce the observation appended to
`distances[nearest.index]` and the pushed `OA` row. -/
def itemOutcome (geo : Geo) (streets : List DStreet) (item : Item) :
    Option (ℕ × Obs × Row) × List String :=
  match geo.housenumber item.NUMBER with
  | none => (none, ["could not reliably parse housenumber"])
  | some housenumber =>
    let point : Coord := (item.LON, item.LAT)
    let scan := scanStreets geo point streets
    match scan.1 with
    | none => (none, scan.2 ++ ["unable to find nearest street for point", "streets", "item"])
    | some nearest =>
      let par := geo.parity nearest.2.2 point
      let dist := geo.lineDistance (geo.sliceLineAtProjection nearest.2.1.coordinates nearest.2.2)
      (some (nearest.1,
             ⟨housenumber, dist, par⟩,
             ⟨nearest.2.1.id, "OA", (housenumber : ℚ), some item.LON, some item.LAT, par,
              nearest.2.2.point.1, nearest.2.2.point.2⟩),
       scan.2)

/-- Mutable state of the batch pass: the per-street `distances` buckets,
the rows pushed so far, and the diagnostics logged so far. -/
structure DState where
  distances : List (List Obs)
  rows : List Row
  logs : List String
deriving Repr

/-- Commit of one item's outcome onto the driver state. -/
def obsStep (geo : Geo) (streets : List DStreet) (st : DState) (item : Item) : DState :=
  match itemOutcome geo streets item with
  | (none, logs) => { st with logs := st.logs ++ logs }
  | (some out, logs) =>
    { distances := st.distances.set out.1 ((st.distances.getD out.1 []) ++ [out.2.1]),
      rows := st.rows ++ [out.2.2],
      logs := st.logs ++ logs }

/-- The whole batch pass (lines 31-94) starting from one empty
observation bucket per street (line 27). -/
def obsPass (geo : Geo) (streets : List DStreet) (batch : List Item) : DState :=
  batch.foldl (obsStep geo streets) ⟨streets.map (fun _ => []), [], []⟩

/-- The effect of one item on the `distances` buckets alone. -/
def distStep (geo : Geo) (streets : List DStreet) (ds : List (List Obs)) (item : Item) :
    List (List Obs) :=
  match (itemOutcome geo streets item).1 with
  | none => ds
  | some out => ds.set out.1 ((ds.getD out.1 []) ++ [out.2.1])

/-- `housenumbers.forEach` push of lines 187-199: a falsy interpolation
result (nothing, or the number zero) is skipped, otherwise a `VERTEX` row
is pushed carrying the vertex as projected coordinate. -/
def pushNum (id : String) (vertex : Coord) (num : Option ℚ) : List Row :=
  match num with
  | none => []
  | some v =>
    if v = 0 then []
    else [⟨id, "VERTEX", v, none, none, none, vertex.1, vertex.2⟩]

/-- Body of the vertex walk of lines 153-201: skip the first vertex,
accumulate the edge distance, interpolate once for a `zigzag` street and
once per side (left first) otherwise, and push the non-falsy results. -/
def vtxBody (geo : Geo) (coords : List Coord) (d : List Obs) (sch : String) (id : String)
    (acc : ℚ × List Row) (iv : ℕ × Coord) : ℚ × List Row :=
  if iv.1 = 0 then acc
  else
    let edge := (coords.drop (iv.1 - 1)).take 2
    let vd := if edge.length = 2 then acc.1 + geo.lineDistance edge else acc.1
    let nums : List (Option ℚ) :=
      if sch = "zigzag" then [interpolate d vd]
      else [interpolate (d.filter (fun o => o.parity = some Side.L)) vd,
            interpolate (d.filter (fun o => o.parity = some Side.R)) vd]
    (vd, acc.2 ++ nums.flatMap (pushNum id iv.2))

/-- The vertex walk of one street (lines 145-202), given that street's
sorted observation bucket and assigned scheme. -/
def vtxStreet (geo : Geo) (d : List Obs) (sch : String) (street : DStreet) : List Row :=
  (street.coordinates.enum.foldl (vtxBody geo street.coordinates d sch street.id) (0, [])).2

/-- The whole augmentation stream for one lookup tuple: decode the
streets, run the batch pass, sort each bucket, classify each street's
scheme, then walk every street's vertices; the pushed rows and the logged
diagnostics. -/
def augment (geo : Geo) (lookup : Lookup) : List Row × List String :=
  let streets := decodeStreets geo lookup.streets
  let st := obsPass geo streets lookup.batch
  let sorted := st.distances.map sortByDist
  let schemes := sorted.map schemeOf
  let vtx := (streets.zip (sorted.zip schemes)).flatMap
    (fun x => vtxStreet geo x.2.1 x.2.2 x.1)
  (st.rows ++ vtx, st.logs)

/-- The observation rows of a tuple, one (optional) row per batch item in
batch order. -/
def obsPart (geo : Geo) (lookup : Lookup) : List Row :=
  lookup.batch.flatMap
    (fun it => ((itemOutcome geo (decodeStreets geo lookup.streets) it).1.map
      (fun out => out.2.2)).toList)

/-- The diagnostics of a list of batch items, in batch order. -/
def obsLogs (geo : Geo) (lookup : Lookup) (items : List Item) : List String :=
  items.flatMap (fun it => (itemOutcome geo (decodeStreets geo lookup.streets) it).2)

/-- The `distances` buckets after the batch pass. -/
def obsDists (geo : Geo) (streets : List DStreet) (batch : List Item) : List (List Obs) :=
  batch.foldl (distStep geo streets) (streets.map (fun _ => []))

/-- Each street zipped with its sorted observation bucket and its
assigned scheme. -/
def streetTracks (geo : Geo) (lookup : Lookup) : List (DStreet × List Obs × String) :=
  let streets := decodeStreets geo lookup.streets
  let sorted := (obsDists geo streets lookup.batch).map sortByDist
  streets.zip (sorted.zip (sorted.map schemeOf))

/-- The vertex rows of a tuple, streets in order. -/
def vtxPart (geo : Geo) (lookup : Lookup) : List Row :=
  (streetTracks geo lookup).flatMap (fun x => vtxStreet geo x.2.1 x.2.2 x.1)

/-- Cumulative distance `vertexDistance` along the walk after processing
vertex `i` (lines 158-162). -/
def stepDist (geo : Geo) (coords : List Coord) (i : ℕ) : ℚ :=
  let edge := (coords.drop (i - 1)).take 2
  if edge.length = 2 then geo.lineDistance edge else 0

/-- The value of `vertexDistance` when vertex `i` is interpolated. -/
def cumDist (geo : Geo) (coords : List Coord) : ℕ → ℚ
  | 0 => 0
  | Nat.succ i => cumDist geo coords i + stepDist geo coords (i + 1)

/-- The interpolations attempted at vertex `i` (lines 167-184): one over
the whole bucket under `zigzag`, else left side first then right side. -/
def vtxNums (geo : Geo) (coords : List Coord) (d : List Obs) (sch : String) (i : ℕ) :
    List (Option ℚ) :=
  if sch = "zigzag" then [interpolate d (cumDist geo coords i)]
  else [interpolate (d.filter (fun o => o.parity = some Side.L)) (cumDist geo coords i),
        interpolate (d.filter (fun o => o.parity = some Side.R)) (cumDist geo coords i)]

/-- The rows pushed at vertex `i` of a street's walk. -/
def vtxRowsAt (geo : Geo) (coords : List Coord) (d : List Obs) (sch : String) (id : String)
    (i : ℕ) : List Row :=
  (vtxNums geo coords d sch i).flatMap (pushNum id (coords.getD i (0, 0)))

lemma cumDist_succ (geo : Geo) (coords : List Coord) (p : ℕ) :
    cumDist geo coords (p + 1) = cumDist geo coords p + stepDist geo coords (p + 1) := rfl

lemma vtx_walk (geo : Geo) (coords : List Coord) (d : List Obs) (sch : String) (id : String) :
    ∀ (tail : List Coord) (p : ℕ) (rows : List Row),
      coords.drop (p + 1) = tail →
      ((List.enumFrom (p + 1) tail).foldl (vtxBody geo coords d sch id)
          (cumDist geo coords p, rows)).2
        = rows ++ (List.range tail.length).flatMap
            (fun t => vtxRowsAt geo coords d sch id (p + 1 + t)) := by
  intro tail
  induction tail with
  | nil => intro p rows _; simp
  | cons v rest ih =>
    intro p rows hdrop
    rw [List.enumFrom_cons, List.foldl_cons]
    have hv : coords.getD (p + 1) (0, 0) = v := by
      have h0 : coords[p + 1]? = some v := by
        have h1 := List.getElem?_drop coords (p + 1) 0
        rw [hdrop] at h1
        simpa using h1.symm
      rw [List.getD_eq_getElem?_getD, h0]
      rfl
    have hbody : vtxBody geo coords d sch id (cumDist geo coords p, rows) (p + 1, v)
        = (cumDist geo coords (p + 1), rows ++ vtxRowsAt geo coords d sch id (p + 1)) := by
      unfold vtxBody
      rw [if_neg (Nat.succ_ne_zero p)]
      have hvd : (if ((coords.drop (p + 1 - 1)).take 2).length = 2
            then cumDist geo coords p + geo.lineDistance ((coords.drop (p + 1 - 1)).take 2)
            else cumDist geo coords p)
          = cumDist geo coords (p + 1) := by
        rw [cumDist_succ]
        unfold stepDist
        by_cases hlen : ((coords.drop (p + 1 - 1)).take 2).length = 2
        · rw [if_pos hlen, if_pos hlen]
        · rw [if_neg hlen, if_neg hlen, add_zero]
      simp only [hvd]
      unfold vtxRowsAt vtxNums
      rw [hv]
    rw [hbody]
    have hdrop2 : coords.drop (p + 1 + 1) = rest := by
      have h1 := List.drop_drop 1 (p + 1) coords
      rw [hdrop] at h1
      simpa using h1.symm
    have hrec := ih (p + 1) (rows ++ vtxRowsAt geo coords d sch id (p + 1)) hdrop2
    rw [hrec, List.length_cons, List.range_succ_eq_map, List.flatMap_cons, List.flatMap_map,
      List.append_assoc]
    have hfun : (fun t => vtxRowsAt geo coords d sch id (p + 1 + 1 + t))
        = fun a => vtxRowsAt geo coords d sch id (p + 1 + Nat.succ a) := by
      funext a
      congr 1
      omega
    rw [hfun]

lemma vtxStreet_eq (geo : Geo) (d : List Obs) (sch : String) (street : DStreet) :
    vtxStreet geo d sch street
      = (List.range (street.coordinates.length - 1)).flatMap
          (fun t => vtxRowsAt geo street.coordinates d sch street.id (t + 1)) := by
  rcases hc : street.coordinates with _ | ⟨v, tail⟩
  · unfold vtxStreet
    rw [hc]
    rfl
  · unfold vtxStreet
    rw [hc, List.enum_cons, List.foldl_cons]
    have hbody0 : vtxBody geo (v :: tail) d sch street.id (0, []) (0, v) = (0, []) := by
      unfold vtxBody
      rw [if_pos rfl]
    rw [hbody0]
    have h0 : (0 : ℚ) = cumDist geo (v :: tail) 0 := rfl
    rw [h0]
    have hw := vtx_walk geo (v :: tail) d sch street.id tail 0 [] (by simp)
    simp only [Nat.zero_add] at hw
    rw [hw, List.nil_append, List.length_cons, Nat.add_sub_cancel]
    have hfun : (fun t => vtxRowsAt geo (v :: tail) d sch street.id (1 + t))
        = fun t => vtxRowsAt geo (v :: tail) d sch street.id (t + 1) := by
      funext t
      congr 1
      omega
    rw [hfun]

lemma obsStep_rows (geo : Geo) (ss : List DStreet) (st : DState) (it : Item) :
    (obsStep geo ss st it).rows
      = st.rows ++ ((itemOutcome geo ss it).1.map (fun out => out.2.2)).toList := by
  rcases h : itemOutcome geo ss it with ⟨o, logs⟩
  rcases o with _ | out <;> simp [obsStep, h]

lemma obsStep_logs (geo : Geo) (ss : List DStreet) (st : DState) (it : Item) :
    (obsStep geo ss st it).logs = st.logs ++ (itemOutcome geo ss it).2 := by
  rcases h : itemOutcome geo ss it with ⟨o, logs⟩
  rcases o with _ | out <;> simp [obsStep, h]

lemma obsStep_dists (geo : Geo) (ss : List DStreet) (st : DState) (it : Item) :
    (obsStep geo ss st it).distances = distStep geo ss st.distances it := by
  rcases h : itemOutcome geo ss it with ⟨o, logs⟩
  rcases o with _ | out <;> simp [obsStep, distStep, h]

lemma obsFold_rows (geo : Geo) (ss : List DStreet) :
    ∀ (batch : List Item) (st : DState),
      (batch.foldl (obsStep geo ss) st).rows
        = st.rows ++ batch.flatMap
            (fun it => ((itemOutcome geo ss it).1.map (fun out => out.2.2)).toList) := by
  intro batch
  induction batch with
  | nil => intro st; simp
  | cons it batch ih =>
    intro st
    rw [List.foldl_cons, ih, obsStep_rows, List.flatMap_cons, List.append_assoc]

lemma obsFold_logs (geo : Geo) (ss : List DStreet) :
    ∀ (batch : List Item) (st : DState),
      (batch.foldl (obsStep geo ss) st).logs
        = st.logs ++ batch.flatMap (fun it => (itemOutcome geo ss it).2) := by
  intro batch
  induction batch with
  | nil => intro st; simp
  | cons it batch ih =>
    intro st
    rw [List.foldl_cons, ih, obsStep_logs, List.flatMap_cons, List.append_assoc]

lemma obsFold_dists (geo : Geo) (ss : List DStreet) :
    ∀ (batch : List Item) (st : DState),
      (batch.foldl (obsStep geo ss) st).distances
        = batch.foldl (distStep geo ss) st.distances := by
  intro batch
  induction batch with
  | nil => intro st; rfl
  | cons it batch ih =>
    intro st
    rw [List.foldl_cons, List.foldl_cons, ih, obsStep_dists]

lemma augment_rows_eq (geo : Geo) (lookup : Lookup) :
    (augment geo lookup).1 = obsPart geo lookup ++ vtxPart geo lookup := by
  simp only [augment, obsPart, vtxPart, streetTracks, obsDists, obsPass]
  rw [obsFold_rows, obsFold_dists]
  simp

lemma augment_logs_eq (geo : Geo) (lookup : Lookup) :
    (augment geo lookup).2 = obsLogs geo lookup lookup.batch := by
  simp only [augment, obsLogs, obsPass]
  rw [obsFold_logs]
  simp

/-- C4.  All observation anchors of a tuple are emitted before any vertex
anchor; observation anchors follow batch order (one optional row per batch
record, concatenated in order); vertex anchors follow street order, then
vertex index ascending (skipping index zero); and at each vertex of an
`updown` street the left-side interpolation is pushed before the
right-side one. -/
theorem anchor_emission_order (geo : Geo) (lookup : Lookup) :
    (augment geo lookup).1 = obsPart geo lookup ++ vtxPart geo lookup ∧
    obsPart geo lookup = lookup.batch.flatMap
      (fun it => ((itemOutcome geo (decodeStreets geo lookup.streets) it).1.map
        (fun out => out.2.2)).toList) ∧
    vtxPart geo lookup = (streetTracks geo lookup).flatMap
      (fun x => (List.range (x.1.coordinates.length - 1)).flatMap
        (fun t => vtxRowsAt geo x.1.coordinates x.2.1 x.2.2 x.1.id (t + 1))) ∧
    (∀ coords d i, vtxNums geo coords d "updown" i =
      [interpolate (d.filter (fun o => o.parity = some Side.L)) (cumDist geo coords i),
       interpolate (d.filter (fun o => o.parity = some Side.R)) (cumDist geo coords i)]) := by
  refine ⟨augment_rows_eq geo lookup, rfl, ?_, ?_⟩
  · unfold vtxPart
    refine List.flatMap_congr ?_
    intro x _
    exact vtxStreet_eq geo x.2.1 x.2.2 x.1
  · intro coords d i
    unfold vtxNums
    rw [if_neg (by decide : ¬ ("updown" = "zigzag"))]

/-- C8.  Vertex anchors of a street are exactly those produced at the
vertices of index one and upward of its deduplicated coordinates; the
first vertex (index zero) never yields an anchor. -/
theorem vtx_skips_first_vertex (geo : Geo) (d : List Obs) (sch : String) (street : DStreet) :
    vtxStreet geo d sch street
      = (List.range (street.coordinates.length - 1)).flatMap
          (fun t => vtxRowsAt geo street.coordinates d sch street.id (t + 1)) :=
  vtxStreet_eq geo d sch street

/-- C10.  The vertex push of lines 187-199 emits a row exactly when the
interpolated value is truthy: a missing interpolation and the number zero
both yield no anchor. -/
theorem vtx_push_truthy (id : String) (vertex : Coord) (num : Option ℚ) :
    (pushNum id vertex num = [] ↔ num = none ∨ num = some 0) ∧
    pushNum id vertex (some 0) = [] := by
  constructor
  · cases num with
    | none => simp [pushNum]
    | some v =>
      by_cases h : v = 0 <;> simp [pushNum, h]
  · simp [pushNum]

lemma interpolate_nil (q : ℚ) : interpolate [] q = none := by
  unfold interpolate
  rw [if_pos (by simp)]

lemma vtxRowsAt_nil_obs (geo : Geo) (coords : List Coord) (sch : String) (id : String) (i : ℕ) :
    vtxRowsAt geo coords [] sch id i = [] := by
  unfold vtxRowsAt vtxNums
  by_cases h : sch = "zigzag" <;> simp [h, interpolate_nil, pushNum]

/-- C2 counterexample: a street with zero observations is classified
`zigzag` (both zigzag tests hold vacuously over zero counts), not
`updown`. -/
theorem scheme_empty_counterexample :
    schemeOf [] = "zigzag" ∧ (("zigzag" == "updown") = false) := by
  constructor
  · rfl
  · rfl

/-- C2 (amended).  A street with zero valid observations is assigned
scheme `zigzag` by the classifier, and walking its vertices emits no
vertex anchor because every interpolation over its empty observation list
returns nothing. -/
theorem empty_observations_walk (geo : Geo) (sch : String) (street : DStreet) (q : ℚ) :
    schemeOf [] = "zigzag" ∧ interpolate [] q = none ∧ vtxStreet geo [] sch street = [] := by
  refine ⟨rfl, interpolate_nil q, ?_⟩
  rw [vtxStreet_eq]
  simp [vtxRowsAt_nil_obs]

/-- C5.  A record whose raw housenumber fails to normalize contributes
exactly one diagnostic and nothing else: the emitted rows of the tuple is
the same list as if the record were absent, and the diagnostics are those
of the surrounding records with the single parse diagnostic in between;
the remaining records are processed unchanged. -/
theorem invalid_housenumber_skipped (geo : Geo) (ss : List Street)
    (pre post : List Item) (item : Item)
    (h : geo.housenumber item.NUMBER = none) :
    (augment geo ⟨ss, pre ++ item :: post⟩).1 = (augment geo ⟨ss, pre ++ post⟩).1 ∧
    (augment geo ⟨ss, pre ++ item :: post⟩).2
      = obsLogs geo ⟨ss, pre ++ post⟩ pre ++ ["could not reliably parse housenumber"]
        ++ obsLogs geo ⟨ss, pre ++ post⟩ post := by
  have hout : itemOutcome geo (decodeStreets geo ss) item
      = (none, ["could not reliably parse housenumber"]) := by
    unfold itemOutcome
    rw [h]
  constructor
  · rw [augment_rows_eq, augment_rows_eq]
    have hobs : obsPart geo ⟨ss, pre ++ item :: post⟩ = obsPart geo ⟨ss, pre ++ post⟩ := by
      unfold obsPart
      dsimp only
      rw [List.flatMap_append, List.flatMap_append, List.flatMap_cons, hout]
      simp
    have hdists : obsDists geo (decodeStreets geo ss) (pre ++ item :: post)
        = obsDists geo (decodeStreets geo ss) (pre ++ post) := by
      unfold obsDists
      rw [List.foldl_append, List.foldl_append, List.foldl_cons]
      have hstep : ∀ ds, distStep geo (decodeStreets geo ss) ds item = ds := by
        intro ds
        unfold distStep
        rw [hout]
      rw [hstep]
    have hvtx : vtxPart geo ⟨ss, pre ++ item :: post⟩ = vtxPart geo ⟨ss, pre ++ post⟩ := by
      unfold vtxPart streetTracks
      dsimp only
      rw [hdists]
    rw [hobs, hvtx]
  · rw [augment_logs_eq]
    unfold obsLogs
    dsimp only
    rw [List.flatMap_append, List.flatMap_cons, hout]
    simp

lemma itemOutcome_row_source (geo : Geo) (ss : List DStreet) (it : Item) :
    ∀ out, (itemOutcome geo ss it).1 = some out → out.2.2.source = "OA" := by
  intro out h
  unfold itemOutcome at h
  rcases hh : geo.housenumber it.NUMBER with _ | hn
  · rw [hh] at h
    cases h
  · rw [hh] at h
    dsimp only at h
    rcases hs : (scanStreets geo (it.LON, it.LAT) ss).1 with _ | nearest
    · rw [hs] at h
      cases h
    · rw [hs] at h
      dsimp only at h
      cases h
      rfl

lemma pushNum_source (id : String) (vertex : Coord) (num : Option ℚ) (r : Row) :
    r ∈ pushNum id vertex num → r.source = "VERTEX" := by
  intro h
  rcases num with _ | v
  · cases h
  · unfold pushNum at h
    dsimp only at h
    by_cases hv : v = 0
    · rw [if_pos hv] at h
      cases h
    · rw [if_neg hv] at h
      have := List.mem_singleton.mp h
      subst this
      rfl

/-- C7 counterexample is stated further below on a concrete run; this is
the amended tagging theorem: every observation anchor carries source
literal `OA` and every vertex anchor carries source literal `VERTEX`. -/
theorem source_tags_oa_vertex (geo : Geo) (lookup : Lookup) (r : Row) :
    (augment geo lookup).1 = obsPart geo lookup ++ vtxPart geo lookup ∧
    (r ∈ obsPart geo lookup → r.source = "OA") ∧
    (r ∈ vtxPart geo lookup → r.source = "VERTEX") := by
  refine ⟨augment_rows_eq geo lookup, ?_, ?_⟩
  · intro hr
    unfold obsPart at hr
    rcases List.mem_flatMap.mp hr with ⟨it, _, hmem⟩
    rcases hout : (itemOutcome geo (decodeStreets geo lookup.streets) it).1 with _ | out
    · rw [hout] at hmem
      cases hmem
    · rw [hout] at hmem
      simp only [Option.map_some', Option.toList_some] at hmem
      have := List.mem_singleton.mp hmem
      subst this
      exact itemOutcome_row_source geo _ it out hout
  · intro hr
    unfold vtxPart at hr
    rcases List.mem_flatMap.mp hr with ⟨x, _, hmem⟩
    rw [vtxStreet_eq] at hmem
    rcases List.mem_flatMap.mp hmem with ⟨t, _, hmem2⟩
    unfold vtxRowsAt at hmem2
    rcases List.mem_flatMap.mp hmem2 with ⟨num, _, hmem3⟩
    exact pushNum_source _ _ num r hmem3

lemma scan_go (geo : Geo) (point : Coord) :
    ∀ (rest : List DStreet) (k : ℕ) (b : Option (ℕ × DStreet × Proj)) (logs : List String),
      (((List.enumFrom k rest).foldl (scanBody geo point) (b, logs)).1 = none →
         b = none ∧ ∀ t ∈ rest, geo.pointOnLine t.coordinates point = none) ∧
      (∀ c, ((List.enumFrom k rest).foldl (scanBody geo point) (b, logs)).1 = some c →
         (b = some c ∧
            ∀ (j : ℕ) (t : DStreet) (q : Proj),
              rest[j]? = some t → geo.pointOnLine t.coordinates point = some q →
              c.2.2.dist ≤ q.dist) ∨
         (∃ (j : ℕ) (t : DStreet), rest[j]? = some t ∧ c.1 = k + j ∧ c.2.1 = t ∧
            geo.pointOnLine t.coordinates point = some c.2.2 ∧
            (∀ b0, b = some b0 → c.2.2.dist < b0.2.2.dist) ∧
            (∀ (j2 : ℕ) (t2 : DStreet) (q2 : Proj), rest[j2]? = some t2 →
               geo.pointOnLine t2.coordinates point = some q2 →
               (j2 < j → c.2.2.dist < q2.dist) ∧ c.2.2.dist ≤ q2.dist))) := by
  intro rest
  induction rest with
  | nil =>
    intro k b logs
    constructor
    · intro h
      simp only [List.enumFrom_nil, List.foldl_nil] at h
      exact ⟨h, by simp⟩
    · intro c h
      simp only [List.enumFrom_nil, List.foldl_nil] at h
      refine Or.inl ⟨h, ?_⟩
      intro j t q hjt
      simp at hjt
  | cons s rest ih =>
    intro k b logs
    rcases hps : geo.pointOnLine s.coordinates point with _ | proj
    · have hstep : scanBody geo point (b, logs) (k, s)
          = (b, logs ++ ["unable to project point on to linestring", "street", "point"]) := by
        simp [scanBody, hps]
      constructor
      · intro h
        rw [List.enumFrom_cons, List.foldl_cons, hstep] at h
        obtain ⟨hb, hall⟩ := (ih (k + 1) b (logs ++ ["unable to project point on to linestring", "street", "point"])).1 h
        refine ⟨hb, ?_⟩
        intro t ht
        rcases List.mem_cons.mp ht with rfl | ht2
        · exact hps
        · exact hall t ht2
      · intro c h
        rw [List.enumFrom_cons, List.foldl_cons, hstep] at h
        rcases (ih (k + 1) b (logs ++ ["unable to project point on to linestring", "street", "point"])).2 c h with
          ⟨hbc, hbound⟩ | ⟨j, t, hjt, hc1, hct, hpt, hb0, hbnd⟩
        · refine Or.inl ⟨hbc, ?_⟩
          intro j t q hjt hq
          rcases j with _ | j
          · rw [List.getElem?_cons_zero] at hjt
            cases hjt
            rw [hps] at hq
            cases hq
          · rw [List.getElem?_cons_succ] at hjt
            exact hbound j t q hjt hq
        · refine Or.inr ⟨j + 1, t, ?_, by omega, hct, hpt, hb0, ?_⟩
          · rw [List.getElem?_cons_succ]
            exact hjt
          · intro j2 t2 q2 hjt2 hq2
            rcases j2 with _ | j2
            · rw [List.getElem?_cons_zero] at hjt2
              cases hjt2
              rw [hps] at hq2
              cases hq2
            · rw [List.getElem?_cons_succ] at hjt2
              obtain ⟨hlt, hle⟩ := hbnd j2 t2 q2 hjt2 hq2
              exact ⟨fun hj => hlt (by omega), hle⟩
    · rcases b with _ | best
      · have hstep : scanBody geo point (none, logs) (k, s) = (some (k, s, proj), logs) := by
          simp [scanBody, hps]
        constructor
        · intro h
          rw [List.enumFrom_cons, List.foldl_cons, hstep] at h
          obtain ⟨hb, _⟩ := (ih (k + 1) (some (k, s, proj)) logs).1 h
          cases hb
        · intro c h
          rw [List.enumFrom_cons, List.foldl_cons, hstep] at h
          rcases (ih (k + 1) (some (k, s, proj)) logs).2 c h with
            ⟨hbc, hbound⟩ | ⟨j, t, hjt, hc1, hct, hpt, hb0, hbnd⟩
          · cases hbc
            refine Or.inr ⟨0, s, List.getElem?_cons_zero, by omega, rfl, hps, ?_, ?_⟩
            · rintro b0 hb0
              cases hb0
            · intro j2 t2 q2 hjt2 hq2
              rcases j2 with _ | j2
              · rw [List.getElem?_cons_zero] at hjt2
                cases hjt2
                rw [hps] at hq2
                cases hq2
                exact ⟨fun hj => absurd hj (by omega), le_refl _⟩
              · rw [List.getElem?_cons_succ] at hjt2
                exact ⟨fun hj => absurd hj (by omega), hbound j2 t2 q2 hjt2 hq2⟩
          · refine Or.inr ⟨j + 1, t, ?_, by omega, hct, hpt, ?_, ?_⟩
            · rw [List.getElem?_cons_succ]
              exact hjt
            · rintro b0 hb0
              cases hb0
            · intro j2 t2 q2 hjt2 hq2
              rcases j2 with _ | j2
              · rw [List.getElem?_cons_zero] at hjt2
                cases hjt2
                rw [hps] at hq2
                cases hq2
                have hlt := hb0 (k, s, proj) rfl
                exact ⟨fun _ => hlt, le_of_lt hlt⟩
              · rw [List.getElem?_cons_succ] at hjt2
                obtain ⟨hlt, hle⟩ := hbnd j2 t2 q2 hjt2 hq2
                exact ⟨fun hj => hlt (by omega), hle⟩
      · by_cases hlt : proj.dist < best.2.2.dist
        · have hstep : scanBody geo point (some best, logs) (k, s) = (some (k, s, proj), logs) := by
            simp [scanBody, hps, hlt]
          constructor
          · intro h
            rw [List.enumFrom_cons, List.foldl_cons, hstep] at h
            obtain ⟨hb, _⟩ := (ih (k + 1) (some (k, s, proj)) logs).1 h
            cases hb
          · intro c h
            rw [List.enumFrom_cons, List.foldl_cons, hstep] at h
            rcases (ih (k + 1) (some (k, s, proj)) logs).2 c h with
              ⟨hbc, hbound⟩ | ⟨j, t, hjt, hc1, hct, hpt, hb0, hbnd⟩
            · cases hbc
              refine Or.inr ⟨0, s, List.getElem?_cons_zero, by omega, rfl, hps, ?_, ?_⟩
              · rintro b0 hbeq
                cases hbeq
                exact hlt
              · intro j2 t2 q2 hjt2 hq2
                rcases j2 with _ | j2
                · rw [List.getElem?_cons_zero] at hjt2
                  cases hjt2
                  rw [hps] at hq2
                  cases hq2
                  exact ⟨fun hj => absurd hj (by omega), le_refl _⟩
                · rw [List.getElem?_cons_succ] at hjt2
                  exact ⟨fun hj => absurd hj (by omega), hbound j2 t2 q2 hjt2 hq2⟩
            · refine Or.inr ⟨j + 1, t, ?_, by omega, hct, hpt, ?_, ?_⟩
              · rw [List.getElem?_cons_succ]
                exact hjt
              · rintro b0 hbeq
                cases hbeq
                exact lt_trans (hb0 (k, s, proj) rfl) hlt
              · intro j2 t2 q2 hjt2 hq2
                rcases j2 with _ | j2
                · rw [List.getElem?_cons_zero] at hjt2
                  cases hjt2
                  rw [hps] at hq2
                  cases hq2
                  have hstrict := hb0 (k, s, proj) rfl
                  exact ⟨fun _ => hstrict, le_of_lt hstrict⟩
                · rw [List.getElem?_cons_succ] at hjt2
                  obtain ⟨hlt2, hle2⟩ := hbnd j2 t2 q2 hjt2 hq2
                  exact ⟨fun hj => hlt2 (by omega), hle2⟩
        · have hstep : scanBody geo point (some best, logs) (k, s) = (some best, logs) := by
            simp [scanBody, hps, hlt]
          constructor
          · intro h
            rw [List.enumFrom_cons, List.foldl_cons, hstep] at h
            obtain ⟨hb, _⟩ := (ih (k + 1) (some best) logs).1 h
            cases hb
          · intro c h
            rw [List.enumFrom_cons, List.foldl_cons, hstep] at h
            rcases (ih (k + 1) (some best) logs).2 c h with
              ⟨hbc, hbound⟩ | ⟨j, t, hjt, hc1, hct, hpt, hb0, hbnd⟩
            · cases hbc
              refine Or.inl ⟨rfl, ?_⟩
              intro j t q hjt hq
              rcases j with _ | j
              · rw [List.getElem?_cons_zero] at hjt
                cases hjt
                rw [hps] at hq
                cases hq
                exact le_of_not_lt hlt
              · rw [List.getElem?_cons_succ] at hjt
                exact hbound j t q hjt hq
            · refine Or.inr ⟨j + 1, t, ?_, by omega, hct, hpt, ?_, ?_⟩
              · rw [List.getElem?_cons_succ]
                exact hjt
              · rintro b0 hbeq
                cases hbeq
                exact hb0 best rfl
              · intro j2 t2 q2 hjt2 hq2
                rcases j2 with _ | j2
                · rw [List.getElem?_cons_zero] at hjt2
                  cases hjt2
                  rw [hps] at hq2
                  cases hq2
                  have hstrict := lt_of_lt_of_le (hb0 best rfl) (le_of_not_lt hlt)
                  exact ⟨fun _ => hstrict, le_of_lt hstrict⟩
                · rw [List.getElem?_cons_succ] at hjt2
                  obtain ⟨hlt2, hle2⟩ := hbnd j2 t2 q2 hjt2 hq2
                  exact ⟨fun hj => hlt2 (by omega), hle2⟩

lemma scan_all_invalid (geo : Geo) (point : Coord) :
    ∀ (rest : List DStreet) (k : ℕ) (acc : Option (ℕ × DStreet × Proj) × List String),
      (∀ t ∈ rest, geo.pointOnLine t.coordinates point = none) →
      ((List.enumFrom k rest).foldl (scanBody geo point) acc).1 = acc.1 := by
  intro rest
  induction rest with
  | nil => intro k acc _; rfl
  | cons s rest ih =>
    intro k acc hall
    rw [List.enumFrom_cons, List.foldl_cons]
    have hps := hall s (List.mem_cons_self _ _)
    have hstep : scanBody geo point acc (k, s)
        = (acc.1, acc.2 ++ ["unable to project point on to linestring", "street", "point"]) := by
      simp [scanBody, hps]
    rw [hstep]
    exact ih (k + 1) _ (fun t ht => hall t (List.mem_cons_of_mem _ ht))

/-- C6.  The street matcher picks the candidate with the smallest
projection distance, ties broken by lowest candidate index; when no
candidate yields a valid projection it returns nothing, and the driver
then leaves rows and observation buckets untouched and only logs the
diagnostics for the record. -/
theorem nearest_street_selection (geo : Geo) (point : Coord) (streets : List DStreet) :
    (∀ (i : ℕ) (s : DStreet) (p : Proj), (scanStreets geo point streets).1 = some (i, s, p) →
       streets[i]? = some s ∧ geo.pointOnLine s.coordinates point = some p ∧
       ∀ (j : ℕ) (t : DStreet) (q : Proj),
         streets[j]? = some t → geo.pointOnLine t.coordinates point = some q →
         p.dist ≤ q.dist ∧ (q.dist = p.dist → i ≤ j)) ∧
    ((∀ t ∈ streets, geo.pointOnLine t.coordinates point = none) →
       (scanStreets geo point streets).1 = none) ∧
    (∀ (it : Item) (st : DState) (hn : ℤ), geo.housenumber it.NUMBER = some hn →
       (scanStreets geo (it.LON, it.LAT) streets).1 = none →
       obsStep geo streets st it
         = { st with logs := st.logs ++ (scanStreets geo (it.LON, it.LAT) streets).2
             ++ ["unable to find nearest street for point", "streets", "item"] }) := by
  refine ⟨?_, ?_, ?_⟩
  · intro i s p h
    have h2 : ((List.enumFrom 0 streets).foldl (scanBody geo point) (none, [])).1
        = some (i, s, p) := h
    rcases (scan_go geo point streets 0 none []).2 (i, s, p) h2 with
      ⟨hbc, _⟩ | ⟨j, t, hjt, hc1, hct, hpt, _, hbnd⟩
    · cases hbc
    · have hct2 : s = t := hct
      subst hct2
      have hc1a : i = 0 + j := hc1
      have hij : i = j := by omega
      subst hij
      refine ⟨hjt, hpt, ?_⟩
      intro j2 t2 q2 hjt2 hq2
      obtain ⟨hstrict, hle⟩ := hbnd j2 t2 q2 hjt2 hq2
      refine ⟨hle, ?_⟩
      intro heq
      by_contra hgt
      push_neg at hgt
      have hx := hstrict (by omega)
      rw [heq] at hx
      exact lt_irrefl _ hx
  · intro hall
    exact scan_all_invalid geo point streets 0 (none, []) hall
  · intro it st hn hhn hscan
    have hout : itemOutcome geo streets it
        = (none, (scanStreets geo (it.LON, it.LAT) streets).2
            ++ ["unable to find nearest street for point", "streets", "item"]) := by
      unfold itemOutcome
      rw [hhn]
      dsimp only
      rw [hscan]
    simp [obsStep, hout]

/- ---------------------------------------------------------------- -/
/- Concrete instances for exercising the theorems                    -/
/- ---------------------------------------------------------------- -/

/-- A concrete valid projection at distance 2. -/
def projA : Proj := ⟨(1, 0), 2, ((0, 0), (4, 0))⟩

/-- A concrete valid projection at distance 3. -/
def projB : Proj := ⟨(1, 1), 3, ((0, 1), (4, 1))⟩

/-- A concrete family of collaborators given by finite lookup tables. -/
def testGeo : Geo where
  housenumber s :=
    if s = "12B" then none
    else if s = "1" then some 1
    else if s = "3" then some 3
    else none
  decode line :=
    if line = "A" then [(0, 0), (4, 0)]
    else if line = "B" then [(0, 1), (4, 1)]
    else if line = "P" then [(0, 0)]
    else []
  pointOnLine coords _ :=
    if coords = [(0, 0), (4, 0)] then some projA
    else if coords = [(0, 1), (4, 1)] then some projB
    else if coords = [(0, 0)] then some projA
    else none
  parity _ _ := some Side.L
  sliceLineAtProjection _ _ := []
  lineDistance _ := 0

/-- A lookup tuple with one single-vertex street and one valid record. -/
def cexLookup : Lookup := ⟨[⟨"s1", "P"⟩], [⟨"1", 1, 1⟩]⟩

/-- The observation row the record of `cexLookup` produces. -/
def obsRowW : Row := ⟨"s1", "OA", 1, some 1, some 1, some Side.L, 1, 0⟩

/-- C7 counterexample: on a concrete run the observation anchor's
`source` is the literal `OA`, not `OBS`, and the vertex literal is
`VERTEX`, not `VTX`. -/
theorem source_tags_counterexample :
    (augment testGeo cexLookup).1.map (fun r => r.source) = ["OA"] ∧
    (("OA" == "OBS") = false) ∧ (("VERTEX" == "VTX") = false) := by
  refine ⟨by decide, rfl, rfl⟩

theorem source_tags_oa_vertex_check :
    (augment testGeo cexLookup).1 = obsPart testGeo cexLookup ++ vtxPart testGeo cexLookup ∧
    obsRowW.source = "OA" := by
  have h := source_tags_oa_vertex testGeo cexLookup obsRowW
  exact ⟨h.1, h.2.1 (by decide)⟩

theorem invalid_housenumber_skipped_check :
    (augment testGeo ⟨[⟨"s1", "P"⟩], [⟨"12B", 1, 1⟩]⟩).1
      = (augment testGeo ⟨[⟨"s1", "P"⟩], []⟩).1 ∧
    (augment testGeo ⟨[⟨"s1", "P"⟩], [⟨"12B", 1, 1⟩]⟩).2
      = obsLogs testGeo ⟨[⟨"s1", "P"⟩], []⟩ [] ++ ["could not reliably parse housenumber"]
        ++ obsLogs testGeo ⟨[⟨"s1", "P"⟩], []⟩ [] :=
  invalid_housenumber_skipped testGeo [⟨"s1", "P"⟩] [] [] ⟨"12B", 1, 1⟩ (by decide)

/-- Candidate street whose projection is nearest. -/
def stA : DStreet := ⟨"a", [(0, 0), (4, 0)]⟩

/-- Candidate street whose projection is farther. -/
def stB : DStreet := ⟨"b", [(0, 1), (4, 1)]⟩

/-- Degenerate candidate street with no valid projection. -/
def stN : DStreet := ⟨"n", []⟩

theorem nearest_street_selection_check :
    (([stA, stB][0]? = some stA) ∧ testGeo.pointOnLine stA.coordinates (1, 1) = some projA ∧
      projA.dist ≤ projB.dist ∧ (projB.dist = projA.dist → (0 : ℕ) ≤ 1)) ∧
    (scanStreets testGeo (1, 1) [stN]).1 = none := by
  constructor
  · have h := (nearest_street_selection testGeo (1, 1) [stA, stB]).1 0 stA projA (by decide)
    exact ⟨h.1, h.2.1, h.2.2 1 stB projB (by decide) (by decide)⟩
  · exact (nearest_street_selection testGeo (1, 1) [stN]).2.1 (by decide)
